import Mathlib

/-!
Verification of the resume screening engine (`model_handling.py`,
`outlook_work/ai_resume_evaluator.py`, `outlook_work/resume_Parse.py`).

The Python code is shallowly embedded: strings are Lean `String`s, scores are
exact rationals (`ℚ`), byte buffers are `List Nat`.  The external collaborators
(the sentence-transformer model, the PDF/DOCX/OCR extraction backends, and the
regex keyword vocabulary whose Python `set` iteration order is unspecified)
enter as function parameters; everything algorithmic in the source is embedded
directly.
-/

/-! ### Character classes of the Python regexes (ASCII model)

`\s` in `re.sub(r'\s+', ' ', ...)` and `str.strip()`: space, tab, newline,
carriage return, vertical tab, form feed.  `\w`: letters, digits, underscore.
`str.lower()` is modelled on the ASCII range. -/

def isPySpace (c : Char) : Bool :=
  decide (c.toNat = 32) || decide (c.toNat = 9) || decide (c.toNat = 10) ||
  decide (c.toNat = 13) || decide (c.toNat = 11) || decide (c.toNat = 12)

def isWordChar (c : Char) : Bool :=
  decide (48 ≤ c.toNat ∧ c.toNat ≤ 57) || decide (65 ≤ c.toNat ∧ c.toNat ≤ 90) ||
  decide (97 ≤ c.toNat ∧ c.toNat ≤ 122) || decide (c.toNat = 95)

/-- Characters surviving `re.sub(r'[^\w\s\-]', '', text)`: word characters,
whitespace, and the hyphen. -/
def isKept (c : Char) : Bool :=
  isWordChar c || isPySpace c || decide (c.toNat = 45)

/-- ASCII model of Python `str.lower` on a single character. -/
def pyLowerChar (c : Char) : Char :=
  if 65 ≤ c.toNat ∧ c.toNat ≤ 90 then Char.ofNat (c.toNat + 32) else c

/-- `re.sub(r'\s+', ' ', text)`: every maximal whitespace run becomes one
space.  The flag records whether the previous character was whitespace. -/
def collapseAux : Bool → List Char → List Char
  | _, [] => []
  | prevSp, c :: cs =>
    if isPySpace c then
      if prevSp then collapseAux true cs else ' ' :: collapseAux true cs
    else c :: collapseAux false cs

/-- Removal of trailing whitespace (the right half of `str.strip`). -/
def dropTrail : List Char → List Char
  | [] => []
  | c :: cs =>
    if (dropTrail cs).isEmpty && isPySpace c then [] else c :: dropTrail cs

/-- Python `str.strip()` on a character list. -/
def stripList (l : List Char) : List Char := dropTrail (l.dropWhile isPySpace)

def pyStrip (s : String) : String := String.mk (stripList s.toList)

def pyLower (s : String) : String := String.mk (s.toList.map pyLowerChar)

/-- List-level body of `UniversalResumeAnalyzer.preprocess_text`: collapse
whitespace, delete punctuation, lower-case, strip. -/
def ppList (l : List Char) : List Char :=
  stripList (((collapseAux false l).filter isKept).map pyLowerChar)

/-- `UniversalResumeAnalyzer.preprocess_text` (model_handling.py lines
121-127). -/
def preprocess_text (s : String) : String := String.mk (ppList s.toList)

/-- Does `pat` occur as a prefix of `l`?  (Helper for the Python substring
test `pat in s`.) -/
def startsWithL : List Char → List Char → Bool
  | _, [] => true
  | [], _ :: _ => false
  | a :: as, b :: bs => (a == b) && startsWithL as bs

/-- Does `pat` occur contiguously inside `l`?  Embeds Python `pat in s`. -/
def hasSub : List Char → List Char → Bool
  | [], pat => pat.isEmpty
  | a :: t, pat => startsWithL (a :: t) pat || hasSub t pat

/-- The keyword-match test of `analyze_resume`: `kw.lower() in clean_resume`. -/
def kwMatched (clean_resume kw : String) : Bool :=
  hasSub clean_resume.toList (pyLower kw).toList

/-! ### Rounding

Python `round(x, 1)` rounds to one decimal place, ties to even. -/

def roundHalfEven (x : ℚ) : ℤ :=
  if x - (⌊x⌋ : ℚ) < 1/2 then ⌊x⌋
  else if 1/2 < x - (⌊x⌋ : ℚ) then ⌊x⌋ + 1
  else if ⌊x⌋ % 2 = 0 then ⌊x⌋ else ⌊x⌋ + 1

/-- Python `round(x, 1)`. -/
def round1 (x : ℚ) : ℚ := (roundHalfEven (10 * x) : ℚ) / 10

/-! ### Similarity engine and scorer -/

/-- `UniversalResumeAnalyzer.compute_similarity` (lines 158-166).  The cosine
similarity of the sentence-transformer embeddings of two non-blank texts is
the external parameter `sim`; blank input short-circuits to `0.0` before any
embedding call. -/
def compute_similarity (sim : String → String → ℚ) (text1 text2 : String) : ℚ :=
  if pyStrip text1 = "" ∨ pyStrip text2 = "" then 0 else sim text1 text2

/-- The summary label chain of `analyze_resume` (lines 193-199). -/
def summaryOf (s : ℚ) : String :=
  if 80 < s then "Outstanding Match"
  else if 65 < s then "Strong Match"
  else if 50 < s then "Moderate Match"
  else if 35 < s then "Needs Improvement"
  else "Unsatisfactory"

structure AnalyzeResult where
  overall_match_score : ℚ
  keywords_matched : List String
  keywords_total : List String
  semantic_relevance : ℚ
  summary : String

/-- `UniversalResumeAnalyzer.analyze_resume` (lines 168-200).  `kwf` stands
for `self.extract_keywords` with `top_n=30`: its output list order depends on
Python `set` iteration order, so the extractor is a parameter of the
embedding; the code consumes it only through membership, length and the
filter below.  On a job description with no regex match (for example `""`)
`extract_keywords` deterministically returns the empty list. -/
def analyze_resume (sim : String → String → ℚ) (kwf : String → List String)
    (resume_text job_description : String) : AnalyzeResult :=
  let clean_resume := preprocess_text resume_text
  let clean_job := preprocess_text job_description
  let semantic_sim := compute_similarity sim clean_resume clean_job
  let semantic_score := semantic_sim * 100
  let keywords := kwf job_description
  let matched := keywords.filter (fun kw => kwMatched clean_resume kw)
  let keyword_score : ℚ :=
    if keywords = [] then 0
    else ((matched.length : ℚ) / (keywords.length : ℚ)) * 100
  let final0 := 0.60 * semantic_score + 0.40 * keyword_score
  let final_score := round1 (min final0 100)
  { overall_match_score := final_score
    keywords_matched := matched
    keywords_total := keywords
    semantic_relevance := round1 semantic_score
    summary := summaryOf final_score }

/-- The summary bands exactly as the specification words them. -/
def bandLabel (s : ℚ) : String :=
  if 80 < s then "Outstanding Match"
  else if 65 < s ∧ s ≤ 80 then "Strong Match"
  else if 50 < s ∧ s ≤ 65 then "Moderate Match"
  else if 35 < s ∧ s ≤ 50 then "Needs Improvement"
  else "Unsatisfactory"

/-- Keyword extractor instance returning no keywords; this is the exact
behaviour of `extract_keywords` on job descriptions (such as `""` or `"b"`)
with no capitalised word of length ≥ 3 and no technical-vocabulary match. -/
def kwNone : String → List String := fun _ => []

/-- The constant-zero similarity, realisable by an embedding function sending
every text to a pair of orthogonal unit vectors. -/
def sim0 : String → String → ℚ := fun _ _ => 0

/-- Dot product of plane vectors; for unit vectors it equals their cosine
similarity. -/
def dot2 (a b : ℚ × ℚ) : ℚ := a.1 * b.1 + a.2 * b.2

/-- An embedding function sending the text `"b"` to the unit vector `(-1,0)`
and every other text to the unit vector `(1,0)`. -/
def cexEmbed (t : String) : ℚ × ℚ := if t = "b" then (-1, 0) else (1, 0)

/-- Cosine similarity induced by `cexEmbed`: the vectors are unit vectors, so
the cosine is their dot product. -/
def cexSim (t1 t2 : String) : ℚ := dot2 (cexEmbed t1) (cexEmbed t2)

/-! ### Text extractor, batch analysis and the Outlook batch ranker -/

/-- `UniversalResumeAnalyzer.extract_text` (lines 103-119).  The PDF and DOCX
backends (PyMuPDF / OCR and python-docx, both of which already catch their own
failures and return `""`) are the external parameters `pdfExtract` /
`docxExtract`; empty content and unsupported format tags yield `""` without
touching them.  The surrounding `try/except` also degrades to `""`, so the
embedding is a total function. -/
def extract_text (pdfExtract docxExtract : List Nat → String)
    (content : List Nat) (file_format : String) : String :=
  if content = [] then ""
  else if file_format = "pdf" then pdfExtract content
  else if file_format = "docx" then docxExtract content
  else ""

/-- One output dictionary of `UniversalResumeAnalyzer.batch_analyze`; the
`errorTag` field is `some msg` exactly when the Python dict carries an
`"Error"` key. -/
structure BatchEntry where
  errorTag : Option String
  overall_match_score : ℚ
  keywords_matched : List String
  semantic_relevance : ℚ
  summary : String

/-- The per-file body of `batch_analyze` (lines 209-229): blank extracted
text produces the sentinel entry without consulting the scorer. -/
def batchEntryOf (pdfExtract docxExtract : List Nat → String)
    (sim : String → String → ℚ) (kwf : String → List String)
    (job : String) (file : List Nat × String) : BatchEntry :=
  let text := extract_text pdfExtract docxExtract file.1 file.2
  if pyStrip text = "" then
    { errorTag := some "No text extracted", overall_match_score := 0,
      keywords_matched := [], semantic_relevance := 0,
      summary := "No content detected" }
  else
    let analysis := analyze_resume sim kwf text job
    { errorTag := none, overall_match_score := analysis.overall_match_score,
      keywords_matched := analysis.keywords_matched,
      semantic_relevance := analysis.semantic_relevance,
      summary := analysis.summary }

/-- `UniversalResumeAnalyzer.batch_analyze` (lines 202-239). -/
def batch_analyze (pdfExtract docxExtract : List Nat → String)
    (sim : String → String → ℚ) (kwf : String → List String)
    (files : List (List Nat × String)) (job : String) : List BatchEntry :=
  files.map (batchEntryOf pdfExtract docxExtract sim kwf job)

/-- A resume file handed to `AIResumeEvaluator.evaluate_resumes`: its base
file name and its byte content (the `open(...).read()` result). -/
structure ResumeFile where
  fileName : String
  content : List Nat

/-- `"pdf" if filename.lower().endswith(".pdf") else "docx"`
(ai_resume_evaluator.py line 16). -/
def fileFormatOf (filename : String) : String :=
  if (pyLower filename).endsWith ".pdf" then "pdf" else "docx"

/-- One row of the dataframe built by `AIResumeEvaluator.evaluate_resumes`
(scoring columns; the parsed contact columns are copied through unchanged
and carry no logic).  Note there is no error field: blank text is passed to
`analyze_resume` like any other text. -/
structure EvalRow where
  resumeName : String
  overall_match_score : ℚ
  keywordsMatchedDisplay : String
  semantic_relevance : ℚ
  summary : String

/-- The per-file body of `evaluate_resumes` (lines 12-33). -/
def evalRowOf (pdfExtract docxExtract : List Nat → String)
    (sim : String → String → ℚ) (kwf : String → List String)
    (job : String) (f : ResumeFile) : EvalRow :=
  let text := extract_text pdfExtract docxExtract f.content (fileFormatOf f.fileName)
  let analysis := analyze_resume sim kwf text job
  { resumeName := f.fileName
    overall_match_score := analysis.overall_match_score
    keywordsMatchedDisplay := String.intercalate ", " analysis.keywords_matched
    semantic_relevance := analysis.semantic_relevance
    summary := analysis.summary }

/-- The rows of the `evaluate_resumes` dataframe, in input order (before the
final `sort_values`, which only permutes rows and moves each row's rank with
it). -/
def evaluateRows (pdfExtract docxExtract : List Nat → String)
    (sim : String → String → ℚ) (kwf : String → List String)
    (files : List ResumeFile) (job : String) : List EvalRow :=
  files.map (evalRowOf pdfExtract docxExtract sim kwf job)

/-- The `"Overall Match Score"` column, in input order. -/
def evalScores (pdfExtract docxExtract : List Nat → String)
    (sim : String → String → ℚ) (kwf : String → List String)
    (files : List ResumeFile) (job : String) : List ℚ :=
  (evaluateRows pdfExtract docxExtract sim kwf files job).map
    EvalRow.overall_match_score

/-- The comparison behind pandas `rank(ascending=False, method='first')`:
row `j` is ranked before row `i` iff `j` has strictly greater score, or the
same score and an earlier input position. -/
def precScore (s : List ℚ) (j i : ℕ) : Prop :=
  s.getD i 0 < s.getD j 0 ∨ (s.getD j 0 = s.getD i 0 ∧ j < i)

instance precScoreDecidable (s : List ℚ) (j i : ℕ) : Decidable (precScore s j i) := by
  unfold precScore
  exact inferInstance

/-- The set of input positions ranked strictly before position `i`. -/
def beforeSet (s : List ℚ) (i : ℕ) : Finset ℕ :=
  (Finset.range s.length).filter (fun j => precScore s j i)

/-- `df['Overall Match Score'].rank(ascending=False, method='first')` at
input position `i` (ai_resume_evaluator.py line 36). -/
def rankOf (s : List ℚ) (i : ℕ) : ℕ := 1 + (beforeSet s i).card

/-- The whole `Rank` column, in input order. -/
def ranksOf (s : List ℚ) : List ℕ := (List.range s.length).map (rankOf s)

/-- Trivial extraction backend used for concrete witnesses. -/
def pdfX0 : List Nat → String := fun _ => ""

/-- Trivial DOCX backend used for concrete witnesses. -/
def docxX0 : List Nat → String := fun _ => ""

/-- Two resumes with empty byte content, for tie-break witnesses. -/
def demoFiles : List ResumeFile := [⟨"a.pdf", []⟩, ⟨"b.pdf", []⟩]

/-! ### Field extractor (resume_Parse.py) -/

/-- `re.sub(r'\D', '', num)`: the digit characters of a candidate phone
string. -/
def digitsOf (s : String) : List Char := s.toList.filter Char.isDigit

/-- `ResumeParser.normalize_phone` (resume_Parse.py lines 51-57). -/
def normalize_phone (num : String) : Option String :=
  let digits := digitsOf num
  if digits.take 3 = ['9', '7', '7'] ∧ digits.length = 13 then
    some ("+977" ++ String.mk (digits.drop 3))
  else if digits.length = 10 then some (String.mk digits)
  else none

/-- The displayed `"Phone"` field (lines 114 and 133):
`", ".join([p for p in phones if p]) if phones else "Unknown"` where
`phones = [normalize_phone(p) for p in candidates]`. -/
def phoneDisplay (cands : List String) : String :=
  let phones := cands.map normalize_phone
  if phones.isEmpty then "Unknown"
  else String.intercalate ", " (phones.filterMap id)

/-- Shape of a match of the first alternative `\+?977\d{10}` of the phone
regex, without its optional leading plus: thirteen digits starting `977`. -/
def is977Block (l : List Char) : Bool :=
  (l.length == 13) && l.all Char.isDigit && (l.take 3 == ['9', '7', '7'])

/-- Shape of any match of the candidate regex
`(\+?977\d{10}|\b\d{10}\b)`: an optional plus followed by a 977-block, or a
bare ten-digit run. -/
def isPhoneToken (s : String) : Bool :=
  if s.toList.headD ' ' = '+' then is977Block s.toList.tail
  else is977Block s.toList || (decide (s.toList.length = 10) && s.toList.all Char.isDigit)

/-! ### Normal forms for the idempotence analysis of `preprocess_text` -/

/-- A character that the punctuation filter keeps and that lower-casing
leaves unchanged. -/
def goodChar (c : Char) : Bool := isKept c && (pyLowerChar c == c)

/-- The list does not start with whitespace. -/
def headNoSp : List Char → Bool
  | [] => true
  | c :: _ => !isPySpace c

/-- The list does not end with whitespace. -/
def lastNoSp : List Char → Bool
  | [] => true
  | [c] => !isPySpace c
  | _ :: c :: t => lastNoSp (c :: t)

/-- No two adjacent whitespace characters. -/
def noAdjSp : List Char → Bool
  | [] => true
  | [_] => true
  | a :: b :: t => !(isPySpace a && isPySpace b) && noAdjSp (b :: t)

/-- Every whitespace character is a plain space. -/
def onlySp (l : List Char) : Bool := l.all (fun c => !isPySpace c || (c == ' '))

/-! ### Theorems -/

theorem cexEmbed_unit (t : String) :
    (cexEmbed t).1 ^ 2 + (cexEmbed t).2 ^ 2 = 1 := by
  unfold cexEmbed
  split_ifs <;> norm_num

theorem floor_le_roundHalfEven (x : ℚ) : ⌊x⌋ ≤ roundHalfEven x := by
  unfold roundHalfEven
  split_ifs <;> omega

theorem roundHalfEven_le_floor_add_one (x : ℚ) : roundHalfEven x ≤ ⌊x⌋ + 1 := by
  unfold roundHalfEven
  split_ifs <;> omega

theorem roundHalfEven_nonneg {x : ℚ} (h : 0 ≤ x) : 0 ≤ roundHalfEven x := by
  have h1 : (0 : ℤ) ≤ ⌊x⌋ := Int.floor_nonneg.mpr h
  have h2 := floor_le_roundHalfEven x
  omega

theorem roundHalfEven_le_of_le {x : ℚ} {n : ℤ} (h : x ≤ (n : ℚ)) :
    roundHalfEven x ≤ n := by
  have hfl : ⌊x⌋ ≤ n := by
    have := Int.floor_le_floor h
    rwa [Int.floor_intCast] at this
  unfold roundHalfEven
  split_ifs with h1 h2 h3
  · exact hfl
  · have hlt : (⌊x⌋ : ℚ) < x := by linarith
    have hne : ⌊x⌋ ≠ n := by
      rintro rfl
      exact absurd (lt_of_lt_of_le hlt h) (lt_irrefl _)
    omega
  · exact hfl
  · push_neg at h1
    have hlt : (⌊x⌋ : ℚ) < x := by linarith
    have hne : ⌊x⌋ ≠ n := by
      rintro rfl
      exact absurd (lt_of_lt_of_le hlt h) (lt_irrefl _)
    omega

theorem round1_nonneg {x : ℚ} (h : 0 ≤ x) : 0 ≤ round1 x := by
  unfold round1
  have h0 : (0 : ℤ) ≤ roundHalfEven (10 * x) := roundHalfEven_nonneg (by linarith)
  have : (0 : ℚ) ≤ (roundHalfEven (10 * x) : ℚ) := by exact_mod_cast h0
  linarith

theorem round1_le_hundred {x : ℚ} (h : x ≤ 100) : round1 x ≤ 100 := by
  unfold round1
  have h0 : roundHalfEven (10 * x) ≤ (1000 : ℤ) :=
    roundHalfEven_le_of_le (by push_cast; linarith)
  have : (roundHalfEven (10 * x) : ℚ) ≤ 1000 := by exact_mod_cast h0
  linarith

theorem keyword_score_bounds (keywords : List String) (p : String → Bool) :
    0 ≤ (if keywords = [] then (0 : ℚ)
          else (((keywords.filter p).length : ℚ) / (keywords.length : ℚ)) * 100)
    ∧ (if keywords = [] then (0 : ℚ)
          else (((keywords.filter p).length : ℚ) / (keywords.length : ℚ)) * 100) ≤ 100 := by
  split_ifs with h
  · norm_num
  · have hpos : 0 < (keywords.length : ℚ) := by
      have hne : keywords.length ≠ 0 := fun hc => h (List.length_eq_zero.mp hc)
      exact_mod_cast Nat.pos_of_ne_zero hne
    have hle : ((keywords.filter p).length : ℚ) ≤ (keywords.length : ℚ) := by
      exact_mod_cast List.length_filter_le p keywords
    constructor
    · positivity
    · have hq : ((keywords.filter p).length : ℚ) / (keywords.length : ℚ) ≤ 1 :=
        (div_le_one hpos).mpr hle
      linarith

theorem summaryOf_eq_bandLabel (s : ℚ) : summaryOf s = bandLabel s := by
  unfold summaryOf bandLabel
  rcases lt_or_le 80 s with h1 | h1
  · rw [if_pos h1, if_pos h1]
  · rw [if_neg (not_lt.mpr h1), if_neg (not_lt.mpr h1)]
    rcases lt_or_le 65 s with h2 | h2
    · rw [if_pos h2, if_pos (show 65 < s ∧ s ≤ 80 from ⟨h2, h1⟩)]
    · rw [if_neg (not_lt.mpr h2),
        if_neg (show ¬(65 < s ∧ s ≤ 80) from fun hc => absurd hc.1 (not_lt.mpr h2))]
      rcases lt_or_le 50 s with h3 | h3
      · rw [if_pos h3, if_pos (show 50 < s ∧ s ≤ 65 from ⟨h3, h2⟩)]
      · rw [if_neg (not_lt.mpr h3),
          if_neg (show ¬(50 < s ∧ s ≤ 65) from fun hc => absurd hc.1 (not_lt.mpr h3))]
        rcases lt_or_le 35 s with h4 | h4
        · rw [if_pos h4, if_pos (show 35 < s ∧ s ≤ 50 from ⟨h4, h3⟩)]
        · rw [if_neg (not_lt.mpr h4),
            if_neg (show ¬(35 < s ∧ s ≤ 50) from fun hc => absurd hc.1 (not_lt.mpr h4))]

/-- C1: `analyze_resume` matches a keyword iff its lower-cased form is a
substring of the preprocessed resume text, sets
`keyword_score = matched/total*100` (0 for an empty keyword list), and the
final score is `0.60*semantic_score + 0.40*keyword_score` clamped to at most
100 and rounded to one decimal place. -/
theorem C1_keyword_component_and_final_score (sim : String → String → ℚ)
    (kwf : String → List String) (resume job : String) :
    (analyze_resume sim kwf resume job).keywords_matched
        = (kwf job).filter (fun kw => kwMatched (preprocess_text resume) kw)
    ∧ (∀ kw, kw ∈ (analyze_resume sim kwf resume job).keywords_matched
        ↔ kw ∈ kwf job ∧ kwMatched (preprocess_text resume) kw = true)
    ∧ (analyze_resume sim kwf resume job).overall_match_score
        = round1 (min
            (0.60 * (compute_similarity sim (preprocess_text resume) (preprocess_text job) * 100)
              + 0.40 * (if kwf job = [] then 0
                  else ((((kwf job).filter (fun kw => kwMatched (preprocess_text resume) kw)).length : ℚ)
                        / ((kwf job).length : ℚ)) * 100))
            100) := by
  refine ⟨rfl, ?_, rfl⟩
  intro kw
  simp [analyze_resume, List.mem_filter]

/-- C3: the summary label follows exactly the bands of the specification
(`s>80` Outstanding, `65<s≤80` Strong, `50<s≤65` Moderate, `35<s≤50` Needs
Improvement, `s≤35` Unsatisfactory); in particular a score of exactly 80
gives "Strong Match". -/
theorem C3_summary_bands (sim : String → String → ℚ) (kwf : String → List String)
    (resume job : String) :
    (analyze_resume sim kwf resume job).summary
        = bandLabel ((analyze_resume sim kwf resume job).overall_match_score)
    ∧ bandLabel 80 = "Strong Match" := by
  constructor
  · exact summaryOf_eq_bandLabel _
  · norm_num [bandLabel]

/-- C6: `compute_similarity` returns exactly 0 whenever either argument is
blank (empty or whitespace-only), independently of the embedding function
`sim` — no embedding call is consulted. -/
theorem C6_blank_similarity_zero (sim : String → String → ℚ) (X : String) :
    compute_similarity sim "" X = 0 ∧ compute_similarity sim X "" = 0
    ∧ ∀ Y Z : String, pyStrip Y = "" →
        compute_similarity sim Y Z = 0 ∧ compute_similarity sim Z Y = 0 := by
  refine ⟨?_, ?_, ?_⟩
  · unfold compute_similarity
    rw [if_pos (Or.inl (show pyStrip "" = "" by decide))]
  · unfold compute_similarity
    rw [if_pos (Or.inr (show pyStrip "" = "" by decide))]
  · intro Y Z h
    constructor
    · unfold compute_similarity
      rw [if_pos (Or.inl h)]
    · unfold compute_similarity
      rw [if_pos (Or.inr h)]

/-- Witness for C6: a whitespace-only argument yields similarity 0 even for
a nowhere-zero embedding similarity. -/
theorem C6_blank_similarity_zero_witness :
    compute_similarity (fun _ _ => (7 : ℚ)) "  " "Python developer" = 0 :=
  ((C6_blank_similarity_zero (fun _ _ => (7 : ℚ)) "x").2.2 "  " "Python developer"
    (by decide)).1

theorem compute_similarity_sim0 (a b : String) : compute_similarity sim0 a b = 0 := by
  unfold compute_similarity sim0
  split_ifs <;> rfl

/-- C2 as stated is false: with an embedding function whose two texts embed to
antipodal unit vectors the cosine similarity is -1 and `analyze_resume`
returns `overall_match_score = -60` and `semantic_relevance = -100`, both
outside `[0,100]` (the code clamps only the upper end). -/
theorem C2_counterexample :
    (analyze_resume cexSim kwNone "a" "b").overall_match_score = -60
    ∧ (analyze_resume cexSim kwNone "a" "b").semantic_relevance = -100
    ∧ ¬ (0 ≤ (analyze_resume cexSim kwNone "a" "b").overall_match_score) := by
  have hpa : preprocess_text "a" = "a" := by decide
  have hpb : preprocess_text "b" = "b" := by decide
  have hsim : compute_similarity cexSim (preprocess_text "a") (preprocess_text "b") = -1 := by
    rw [hpa, hpb]
    unfold compute_similarity
    rw [if_neg (show ¬(pyStrip "a" = "" ∨ pyStrip "b" = "") by decide)]
    unfold cexSim cexEmbed dot2
    rw [if_neg (show ¬("a" : String) = "b" by decide),
      if_pos (show ("b" : String) = "b" from rfl)]
    norm_num
  refine ⟨?_, ?_, ?_⟩
  · show round1 (min (0.60 * (compute_similarity cexSim (preprocess_text "a")
        (preprocess_text "b") * 100) + 0.40 * (if kwNone "b" = [] then 0
          else (((kwNone "b").filter (fun kw => kwMatched (preprocess_text "a") kw)).length : ℚ)
                / (((kwNone "b").length : ℚ)) * 100)) 100) = -60
    rw [hsim, if_pos (show kwNone "b" = [] from rfl), min_def]
    norm_num [round1, roundHalfEven]
  · show round1 (compute_similarity cexSim (preprocess_text "a")
        (preprocess_text "b") * 100) = -100
    rw [hsim]
    norm_num [round1, roundHalfEven]
  · show ¬ (0 ≤ round1 (min (0.60 * (compute_similarity cexSim (preprocess_text "a")
        (preprocess_text "b") * 100) + 0.40 * (if kwNone "b" = [] then 0
          else (((kwNone "b").filter (fun kw => kwMatched (preprocess_text "a") kw)).length : ℚ)
                / (((kwNone "b").length : ℚ)) * 100)) 100))
    rw [hsim, if_pos (show kwNone "b" = [] from rfl), min_def]
    norm_num [round1, roundHalfEven]

/-- C2 amended: when the embedding similarity lies in `[0,1]` (cosine of
embeddings that are not negatively correlated, as the specification's
Similarity Engine contract assumes), `overall_match_score` and
`semantic_relevance` both lie in `[0,100]`; without that hypothesis only the
upper bounds hold, as the counterexample shows. -/
theorem C2_amended_score_bounds (sim : String → String → ℚ)
    (kwf : String → List String) (resume job : String)
    (h0 : ∀ a b, 0 ≤ sim a b) (h1 : ∀ a b, sim a b ≤ 1) :
    (0 ≤ (analyze_resume sim kwf resume job).overall_match_score
      ∧ (analyze_resume sim kwf resume job).overall_match_score ≤ 100)
    ∧ (0 ≤ (analyze_resume sim kwf resume job).semantic_relevance
      ∧ (analyze_resume sim kwf resume job).semantic_relevance ≤ 100) := by
  have hs0 : 0 ≤ compute_similarity sim (preprocess_text resume) (preprocess_text job) := by
    unfold compute_similarity
    split_ifs
    · exact le_refl 0
    · exact h0 _ _
  have hs1 : compute_similarity sim (preprocess_text resume) (preprocess_text job) ≤ 1 := by
    unfold compute_similarity
    split_ifs
    · norm_num
    · exact h1 _ _
  have hk := keyword_score_bounds (kwf job)
    (fun kw => kwMatched (preprocess_text resume) kw)
  constructor
  · constructor
    · show 0 ≤ round1 (min (0.60 * (compute_similarity sim (preprocess_text resume)
          (preprocess_text job) * 100) + 0.40 * (if kwf job = [] then 0
            else (((kwf job).filter (fun kw => kwMatched (preprocess_text resume) kw)).length : ℚ)
                  / (((kwf job).length : ℚ)) * 100)) 100)
      apply round1_nonneg
      apply le_min _ (by norm_num)
      nlinarith [hk.1, hs0]
    · show round1 (min (0.60 * (compute_similarity sim (preprocess_text resume)
          (preprocess_text job) * 100) + 0.40 * (if kwf job = [] then 0
            else (((kwf job).filter (fun kw => kwMatched (preprocess_text resume) kw)).length : ℚ)
                  / (((kwf job).length : ℚ)) * 100)) 100) ≤ 100
      exact round1_le_hundred (min_le_right _ _)
  · constructor
    · show 0 ≤ round1 (compute_similarity sim (preprocess_text resume)
          (preprocess_text job) * 100)
      exact round1_nonneg (by nlinarith)
    · show round1 (compute_similarity sim (preprocess_text resume)
          (preprocess_text job) * 100) ≤ 100
      exact round1_le_hundred (by nlinarith)

/-- Witness for the amended C2 at a concrete input. -/
theorem C2_amended_score_bounds_witness :
    (0 ≤ (analyze_resume sim0 kwNone "Python engineer" "Python role").overall_match_score
      ∧ (analyze_resume sim0 kwNone "Python engineer" "Python role").overall_match_score ≤ 100)
    ∧ (0 ≤ (analyze_resume sim0 kwNone "Python engineer" "Python role").semantic_relevance
      ∧ (analyze_resume sim0 kwNone "Python engineer" "Python role").semantic_relevance ≤ 100) :=
  C2_amended_score_bounds sim0 kwNone "Python engineer" "Python role"
    (fun _ _ => le_refl 0) (fun _ _ => by norm_num [sim0])

/-- C7 as stated is false: `compute_similarity` can return -1 when the two
texts embed to antipodal unit vectors, so its value does not always lie in
`[0,1]`. -/
theorem C7_counterexample :
    compute_similarity cexSim "a" "b" = -1
    ∧ ¬ (0 ≤ compute_similarity cexSim "a" "b") := by
  have h : compute_similarity cexSim "a" "b" = -1 := by
    unfold compute_similarity
    rw [if_neg (show ¬(pyStrip "a" = "" ∨ pyStrip "b" = "") by decide)]
    unfold cexSim cexEmbed dot2
    rw [if_neg (show ¬("a" : String) = "b" by decide),
      if_pos (show ("b" : String) = "b" from rfl)]
    norm_num
  exact ⟨h, by rw [h]; norm_num⟩

/-- C7 amended: cosine similarity of embeddings lies in `[-1,1]`, and under
that (mathematically guaranteed) bound `compute_similarity` always returns a
value in `[-1,1]`; the lower endpoint 0 claimed by the specification is not
guaranteed. -/
theorem C7_amended_similarity_bounds (sim : String → String → ℚ)
    (hb : ∀ a b, -1 ≤ sim a b ∧ sim a b ≤ 1) (t1 t2 : String) :
    -1 ≤ compute_similarity sim t1 t2 ∧ compute_similarity sim t1 t2 ≤ 1 := by
  unfold compute_similarity
  split_ifs
  · norm_num
  · exact hb t1 t2

/-- Witness for the amended C7 at a concrete input. -/
theorem C7_amended_similarity_bounds_witness :
    -1 ≤ compute_similarity sim0 "resume text" "job text"
    ∧ compute_similarity sim0 "resume text" "job text" ≤ 1 :=
  C7_amended_similarity_bounds sim0
    (fun _ _ => by constructor <;> norm_num [sim0]) "resume text" "job text"

/-- C9: `extract_text` returns the empty string immediately on empty input
bytes, and returns the empty string for any format tag other than `"pdf"` or
`"docx"`; its embedding is a total function, mirroring the catch-all that
converts every internal failure to `""`. -/
theorem C9_extract_text_guards (pdfExtract docxExtract : List Nat → String)
    (content : List Nat) (fmt : String) :
    (content = [] → extract_text pdfExtract docxExtract content fmt = "")
    ∧ (fmt ≠ "pdf" → fmt ≠ "docx" →
        extract_text pdfExtract docxExtract content fmt = "") := by
  constructor
  · rintro rfl
    rfl
  · intro h1 h2
    unfold extract_text
    by_cases hc : content = []
    · rw [if_pos hc]
    · rw [if_neg hc, if_neg h1, if_neg h2]

/-- Witness for C9: empty bytes and an unsupported tag both give `""` even
with backends that would return text. -/
theorem C9_extract_text_guards_witness :
    extract_text (fun _ => "pdf text") (fun _ => "docx text") [] "pdf" = ""
    ∧ extract_text (fun _ => "pdf text") (fun _ => "docx text") [7] "txt" = "" :=
  ⟨(C9_extract_text_guards _ _ [] "pdf").1 rfl,
   (C9_extract_text_guards _ _ [7] "txt").2 (by decide) (by decide)⟩

theorem analyze_sim0_blankish (kwf : String → List String)
    (resume job : String) (hkw : kwf job = []) :
    (analyze_resume sim0 kwf resume job).overall_match_score = 0
    ∧ (analyze_resume sim0 kwf resume job).semantic_relevance = 0
    ∧ (analyze_resume sim0 kwf resume job).summary = "Unsatisfactory" := by
  have hsim : compute_similarity sim0 (preprocess_text resume) (preprocess_text job) = 0 :=
    compute_similarity_sim0 _ _
  have hov : (analyze_resume sim0 kwf resume job).overall_match_score = 0 := by
    show round1 (min (0.60 * (compute_similarity sim0 (preprocess_text resume)
        (preprocess_text job) * 100) + 0.40 * (if kwf job = [] then 0
          else (((kwf job).filter (fun kw => kwMatched (preprocess_text resume) kw)).length : ℚ)
                / (((kwf job).length : ℚ)) * 100)) 100) = 0
    rw [hsim, if_pos hkw, min_def]
    norm_num [round1, roundHalfEven]
  refine ⟨hov, ?_, ?_⟩
  · show round1 (compute_similarity sim0 (preprocess_text resume)
        (preprocess_text job) * 100) = 0
    rw [hsim]
    norm_num [round1, roundHalfEven]
  · show summaryOf ((analyze_resume sim0 kwf resume job).overall_match_score) = "Unsatisfactory"
    rw [hov]
    norm_num [summaryOf]

/-- C4 as stated (covering both batch pipelines) is false: in
`AIResumeEvaluator.evaluate_resumes` a document whose extracted text is blank
is passed to the scorer anyway and yields summary `"Unsatisfactory"` — not
the `"No content detected"` sentinel — and the row type has no error tag. -/
theorem C4_counterexample :
    pyStrip (extract_text pdfX0 docxX0 [] "pdf") = ""
    ∧ (evalRowOf pdfX0 docxX0 sim0 kwNone "" ⟨"r.pdf", []⟩).overall_match_score = 0
    ∧ (evalRowOf pdfX0 docxX0 sim0 kwNone "" ⟨"r.pdf", []⟩).summary = "Unsatisfactory"
    ∧ (evalRowOf pdfX0 docxX0 sim0 kwNone "" ⟨"r.pdf", []⟩).summary ≠ "No content detected" := by
  have hrow := analyze_sim0_blankish kwNone "" "" rfl
  have hov : (evalRowOf pdfX0 docxX0 sim0 kwNone "" ⟨"r.pdf", []⟩).overall_match_score
      = (analyze_resume sim0 kwNone "" "").overall_match_score := rfl
  have hsum : (evalRowOf pdfX0 docxX0 sim0 kwNone "" ⟨"r.pdf", []⟩).summary
      = (analyze_resume sim0 kwNone "" "").summary := rfl
  refine ⟨by decide, ?_, ?_, ?_⟩
  · rw [hov, hrow.1]
  · rw [hsum, hrow.2.2]
  · rw [hsum, hrow.2.2]
    decide

/-- C4 amended: in `UniversalResumeAnalyzer.batch_analyze`, a document whose
extracted text is blank yields the sentinel entry (score 0, relevance 0, no
matched keywords, error tag "No text extracted", summary "No content
detected") for every scorer and keyword extractor — the scorer is never
consulted; `evaluate_resumes`, by contrast, passes blank text to the scorer
(see the counterexample). -/
theorem C4_amended_blank_sentinel (pdfExtract docxExtract : List Nat → String)
    (sim : String → String → ℚ) (kwf : String → List String)
    (content : List Nat) (fmt job : String)
    (hblank : pyStrip (extract_text pdfExtract docxExtract content fmt) = "") :
    batchEntryOf pdfExtract docxExtract sim kwf job (content, fmt)
      = { errorTag := some "No text extracted", overall_match_score := 0,
          keywords_matched := [], semantic_relevance := 0,
          summary := "No content detected" } := by
  unfold batchEntryOf
  rw [if_pos hblank]

/-- Witness for the amended C4 at a concrete blank document. -/
theorem C4_amended_blank_sentinel_witness :
    batchEntryOf pdfX0 docxX0 (fun _ _ => (9 : ℚ)) (fun _ => ["Python"])
        "Python developer" ([], "pdf")
      = { errorTag := some "No text extracted", overall_match_score := 0,
          keywords_matched := [], semantic_relevance := 0,
          summary := "No content detected" } :=
  C4_amended_blank_sentinel pdfX0 docxX0 (fun _ _ => (9 : ℚ)) (fun _ => ["Python"])
    [] "pdf" "Python developer" (by decide)

theorem precScore_irrefl (s : List ℚ) (i : ℕ) : ¬ precScore s i i := by
  rintro (h | ⟨_, h⟩)
  · exact lt_irrefl _ h
  · exact Nat.lt_irrefl _ h

theorem precScore_trans {s : List ℚ} {a b c : ℕ} (h1 : precScore s a b)
    (h2 : precScore s b c) : precScore s a c := by
  rcases h1 with h1 | ⟨e1, l1⟩ <;> rcases h2 with h2 | ⟨e2, l2⟩
  · exact Or.inl (lt_trans h2 h1)
  · exact Or.inl (e2 ▸ h1)
  · exact Or.inl (e1 ▸ h2)
  · exact Or.inr ⟨e1.trans e2, Nat.lt_trans l1 l2⟩

theorem precScore_total {s : List ℚ} {i j : ℕ} (h : i ≠ j) :
    precScore s i j ∨ precScore s j i := by
  rcases lt_trichotomy (s.getD i 0) (s.getD j 0) with h1 | h1 | h1
  · exact Or.inr (Or.inl h1)
  · rcases Nat.lt_or_ge i j with h2 | h2
    · exact Or.inl (Or.inr ⟨h1, h2⟩)
    · exact Or.inr (Or.inr ⟨h1.symm, Nat.lt_of_le_of_ne h2 (Ne.symm h)⟩)
  · exact Or.inl (Or.inl h1)

theorem rankOf_lt_of_prec {s : List ℚ} {i j : ℕ}
    (hj : j < s.length) (h : precScore s j i) : rankOf s j < rankOf s i := by
  have hsub : insert j (beforeSet s j) ⊆ beforeSet s i := by
    intro k hk
    rcases Finset.mem_insert.mp hk with rfl | hk
    · exact Finset.mem_filter.mpr ⟨Finset.mem_range.mpr hj, h⟩
    · obtain ⟨hkr, hkp⟩ := Finset.mem_filter.mp hk
      exact Finset.mem_filter.mpr ⟨hkr, precScore_trans hkp h⟩
  have hnot : j ∉ beforeSet s j := fun hmem =>
    precScore_irrefl s j (Finset.mem_filter.mp hmem).2
  have hc := Finset.card_le_card hsub
  rw [Finset.card_insert_of_not_mem hnot] at hc
  unfold rankOf
  omega

theorem one_le_rankOf (s : List ℚ) (i : ℕ) : 1 ≤ rankOf s i :=
  Nat.le_add_right 1 _

theorem rankOf_le_length {s : List ℚ} {i : ℕ} (hi : i < s.length) :
    rankOf s i ≤ s.length := by
  have hsub : beforeSet s i ⊆ (Finset.range s.length).erase i := by
    intro k hk
    obtain ⟨hkr, hkp⟩ := Finset.mem_filter.mp hk
    refine Finset.mem_erase.mpr ⟨?_, hkr⟩
    rintro rfl
    exact precScore_irrefl s k hkp
  have h1 := Finset.card_le_card hsub
  rw [Finset.card_erase_of_mem (Finset.mem_range.mpr hi), Finset.card_range] at h1
  unfold rankOf
  omega

theorem ranksOf_nodup (s : List ℚ) : (ranksOf s).Nodup := by
  unfold ranksOf
  refine List.Nodup.map_on ?_ (List.nodup_range _)
  intro i hi j hj hfe
  by_contra hne
  rcases precScore_total hne with h | h
  · exact absurd hfe
      (ne_of_lt (rankOf_lt_of_prec (List.mem_range.mp hi) h))
  · exact absurd hfe
      (ne_of_gt (rankOf_lt_of_prec (List.mem_range.mp hj) h))

theorem ranksOf_toFinset (s : List ℚ) :
    (ranksOf s).toFinset = Finset.Icc 1 s.length := by
  apply Finset.eq_of_subset_of_card_le
  · intro r hr
    rw [List.mem_toFinset] at hr
    unfold ranksOf at hr
    obtain ⟨i, hi, rfl⟩ := List.mem_map.mp hr
    exact Finset.mem_Icc.mpr ⟨one_le_rankOf s i, rankOf_le_length (List.mem_range.mp hi)⟩
  · rw [Nat.card_Icc, List.toFinset_card_of_nodup (ranksOf_nodup s)]
    unfold ranksOf
    rw [List.length_map, List.length_range]
    omega

theorem evalScores_length (pdfExtract docxExtract : List Nat → String)
    (sim : String → String → ℚ) (kwf : String → List String)
    (files : List ResumeFile) (job : String) :
    (evalScores pdfExtract docxExtract sim kwf files job).length = files.length := by
  unfold evalScores evaluateRows
  rw [List.length_map, List.length_map]

/-- C5: every batch yields one output entry per input in both pipelines; the
`Rank` column assigned by `rank(ascending=False, method='first')` has length
N, is duplicate-free, forms exactly the set `{1, ..., N}`, and two documents
with equal overall score at input positions `i < j` receive strictly
increasing ranks.  (The later `sort_values` only permutes whole rows, so each
document keeps its rank.) -/
theorem C5_rank_totality_and_tie_break (pdfExtract docxExtract : List Nat → String)
    (sim : String → String → ℚ) (kwf : String → List String)
    (files : List ResumeFile) (bfiles : List (List Nat × String)) (job : String) :
    (evaluateRows pdfExtract docxExtract sim kwf files job).length = files.length
    ∧ (batch_analyze pdfExtract docxExtract sim kwf bfiles job).length = bfiles.length
    ∧ (ranksOf (evalScores pdfExtract docxExtract sim kwf files job)).length = files.length
    ∧ (ranksOf (evalScores pdfExtract docxExtract sim kwf files job)).Nodup
    ∧ (ranksOf (evalScores pdfExtract docxExtract sim kwf files job)).toFinset
        = Finset.Icc 1 files.length
    ∧ ∀ i j : ℕ, i < j → j < files.length →
        (evalScores pdfExtract docxExtract sim kwf files job).getD i 0
          = (evalScores pdfExtract docxExtract sim kwf files job).getD j 0 →
        rankOf (evalScores pdfExtract docxExtract sim kwf files job) i
          < rankOf (evalScores pdfExtract docxExtract sim kwf files job) j := by
  have hlen := evalScores_length pdfExtract docxExtract sim kwf files job
  refine ⟨?_, ?_, ?_, ranksOf_nodup _, ?_, ?_⟩
  · unfold evaluateRows
    exact List.length_map _ _
  · unfold batch_analyze
    exact List.length_map _ _
  · unfold ranksOf
    rw [List.length_map, List.length_range, hlen]
  · rw [ranksOf_toFinset, hlen]
  · intro i j hij hj hscore
    have hj' : j < (evalScores pdfExtract docxExtract sim kwf files job).length := by
      rw [hlen]; exact hj
    exact rankOf_lt_of_prec (Nat.lt_trans hij hj') (Or.inr ⟨hscore, hij⟩)

/-- Witness for C5: two empty resumes tie at score 0 and the earlier upload
receives the strictly smaller rank. -/
theorem C5_rank_totality_and_tie_break_witness :
    rankOf (evalScores pdfX0 docxX0 sim0 kwNone demoFiles "") 0
      < rankOf (evalScores pdfX0 docxX0 sim0 kwNone demoFiles "") 1 := by
  have hdemo : evalScores pdfX0 docxX0 sim0 kwNone demoFiles "" = [0, 0] := by
    have h := analyze_sim0_blankish kwNone "" "" rfl
    unfold evalScores evaluateRows demoFiles
    simp only [List.map_cons, List.map_nil]
    have h1 : (evalRowOf pdfX0 docxX0 sim0 kwNone "" ⟨"a.pdf", []⟩).overall_match_score
        = (analyze_resume sim0 kwNone "" "").overall_match_score := rfl
    have h2 : (evalRowOf pdfX0 docxX0 sim0 kwNone "" ⟨"b.pdf", []⟩).overall_match_score
        = (analyze_resume sim0 kwNone "" "").overall_match_score := rfl
    rw [h1, h2, h.1]
  exact (C5_rank_totality_and_tie_break pdfX0 docxX0 sim0 kwNone demoFiles [] "").2.2.2.2.2
    0 1 (by decide) (by decide) (by rw [hdemo]; rfl)

theorem filter_isDigit_of_all {l : List Char} (h : l.all Char.isDigit = true) :
    l.filter Char.isDigit = l :=
  List.filter_eq_self.mpr (List.all_eq_true.mp h)

theorem is977Block_spec {l : List Char} (h : is977Block l = true) :
    l.length = 13 ∧ l.all Char.isDigit = true ∧ l.take 3 = ['9', '7', '7'] := by
  unfold is977Block at h
  rw [Bool.and_eq_true, Bool.and_eq_true] at h
  obtain ⟨⟨h1, h2⟩, h3⟩ := h
  exact ⟨eq_of_beq h1, h2, eq_of_beq h3⟩

theorem normalize_phone_isSome_of_token {s : String} (h : isPhoneToken s = true) :
    (normalize_phone s).isSome = true := by
  unfold isPhoneToken at h
  by_cases hplus : s.toList.headD ' ' = '+'
  · rw [if_pos hplus] at h
    have hne : s.toList ≠ [] := by
      intro h0
      rw [h0] at hplus
      exact absurd hplus (by decide)
    obtain ⟨a, t, hat⟩ := List.exists_cons_of_ne_nil hne
    have ha : a = '+' := by
      rw [hat] at hplus
      simpa using hplus
    have htail : s.toList.tail = t := by rw [hat]; rfl
    rw [htail] at h
    obtain ⟨hlen, hdig, htake⟩ := is977Block_spec h
    have hd : digitsOf s = t := by
      unfold digitsOf
      rw [hat, ha]
      rw [List.filter_cons_of_neg (by decide : Char.isDigit '+' ≠ true)]
      exact filter_isDigit_of_all hdig
    unfold normalize_phone
    rw [hd, if_pos ⟨htake, hlen⟩]
    rfl
  · rw [if_neg hplus] at h
    rw [Bool.or_eq_true] at h
    rcases h with h977 | h10
    · obtain ⟨hlen, hdig, htake⟩ := is977Block_spec h977
      have hd : digitsOf s = s.toList := by
        unfold digitsOf
        exact filter_isDigit_of_all hdig
      unfold normalize_phone
      rw [hd, if_pos ⟨htake, hlen⟩]
      rfl
    · rw [Bool.and_eq_true] at h10
      obtain ⟨hlen, hdig⟩ := h10
      have hlen' : s.toList.length = 10 := of_decide_eq_true hlen
      have hd : digitsOf s = s.toList := by
        unfold digitsOf
        exact filter_isDigit_of_all hdig
      unfold normalize_phone
      rw [hd, if_neg (fun hc => by have := hc.2; omega), if_pos hlen']
      rfl

theorem filterMap_id_length_of_isSome {α : Type} {l : List (Option α)}
    (h : ∀ o ∈ l, o.isSome = true) : (l.filterMap id).length = l.length := by
  induction l with
  | nil => rfl
  | cons o t ih =>
    obtain ⟨v, hv⟩ := Option.isSome_iff_exists.mp (h o (List.mem_cons_self o t))
    subst hv
    rw [List.filterMap_cons]
    simp only [id]
    rw [List.length_cons, List.length_cons,
      ih (fun x hx => h x (List.mem_cons_of_mem _ hx))]

/-- C8: `normalize_phone` maps a candidate whose digits form a 13-digit
sequence beginning `977` to `"+977"` plus its trailing 10 digits, returns a
bare 10-digit sequence unchanged, and discards anything matching neither
form; the displayed Phone field joins the surviving numbers with `", "`, is
`"Unknown"` exactly when the regex found no candidates, and every candidate
actually matched by the regex survives normalization. -/
theorem C8_phone_normalization_and_display :
    (∀ num : String,
      ((digitsOf num).take 3 = ['9', '7', '7'] → (digitsOf num).length = 13 →
          normalize_phone num = some ("+977" ++ String.mk ((digitsOf num).drop 3)))
      ∧ ((digitsOf num).length = 10 →
          normalize_phone num = some (String.mk (digitsOf num)))
      ∧ (¬((digitsOf num).take 3 = ['9', '7', '7'] ∧ (digitsOf num).length = 13) →
          (digitsOf num).length ≠ 10 → normalize_phone num = none))
    ∧ (∀ cands : List String,
        (cands = [] → phoneDisplay cands = "Unknown")
        ∧ (cands ≠ [] → phoneDisplay cands
            = String.intercalate ", " ((cands.map normalize_phone).filterMap id))
        ∧ ((∀ c ∈ cands, isPhoneToken c = true) →
            ((cands.map normalize_phone).filterMap id).length = cands.length)) := by
  constructor
  · intro num
    refine ⟨?_, ?_, ?_⟩
    · intro h1 h2
      unfold normalize_phone
      rw [if_pos ⟨h1, h2⟩]
    · intro h10
      unfold normalize_phone
      rw [if_neg (fun hc => by have := hc.2; omega), if_pos h10]
    · intro hn1 hn2
      unfold normalize_phone
      rw [if_neg hn1, if_neg hn2]
  · intro cands
    refine ⟨?_, ?_, ?_⟩
    · rintro rfl
      rfl
    · intro hne
      cases cands with
      | nil => exact absurd rfl hne
      | cons c t =>
        unfold phoneDisplay
        rw [if_neg (by simp : ¬(((c :: t).map normalize_phone).isEmpty = true))]
    · intro hall
      rw [filterMap_id_length_of_isSome, List.length_map]
      intro o ho
      obtain ⟨c, hc, rfl⟩ := List.mem_map.mp ho
      exact normalize_phone_isSome_of_token (hall c hc)

/-- Witness for C8: the specification's scenario `"9771234567890"` normalizes
to `"+9771234567890"`, and an empty candidate list displays `"Unknown"`. -/
theorem C8_phone_normalization_and_display_witness :
    normalize_phone "9771234567890" = some "+9771234567890"
    ∧ phoneDisplay [] = "Unknown" :=
  ⟨((C8_phone_normalization_and_display.1 "9771234567890").1 (by decide)
      (by decide)).trans (by decide),
   (C8_phone_normalization_and_display.2 []).1 rfl⟩

theorem charToNat_ofNat {n : ℕ} (hv : n.isValidChar) : (Char.ofNat n).toNat = n := by
  unfold Char.ofNat
  rw [dif_pos hv]
  rfl

theorem isPySpace_iff {c : Char} :
    isPySpace c = true ↔ (c.toNat = 32 ∨ c.toNat = 9 ∨ c.toNat = 10
      ∨ c.toNat = 13 ∨ c.toNat = 11 ∨ c.toNat = 12) := by
  simp [isPySpace, Bool.or_eq_true, or_assoc]

theorem isKept_iff {c : Char} :
    isKept c = true ↔ ((48 ≤ c.toNat ∧ c.toNat ≤ 57) ∨ (65 ≤ c.toNat ∧ c.toNat ≤ 90)
      ∨ (97 ≤ c.toNat ∧ c.toNat ≤ 122) ∨ c.toNat = 95
      ∨ (c.toNat = 32 ∨ c.toNat = 9 ∨ c.toNat = 10 ∨ c.toNat = 13 ∨ c.toNat = 11 ∨ c.toNat = 12)
      ∨ c.toNat = 45) := by
  simp [isKept, isWordChar, isPySpace, Bool.or_eq_true, or_assoc]

theorem toNat_pyLowerChar_of_upper {c : Char} (h : 65 ≤ c.toNat ∧ c.toNat ≤ 90) :
    (pyLowerChar c).toNat = c.toNat + 32 := by
  unfold pyLowerChar
  rw [if_pos h]
  exact charToNat_ofNat (Or.inl (by omega))

theorem pyLowerChar_of_not_upper {c : Char} (h : ¬(65 ≤ c.toNat ∧ c.toNat ≤ 90)) :
    pyLowerChar c = c := by
  unfold pyLowerChar
  rw [if_neg h]

theorem pyLowerChar_idem (c : Char) :
    pyLowerChar (pyLowerChar c) = pyLowerChar c := by
  by_cases h : 65 ≤ c.toNat ∧ c.toNat ≤ 90
  · have ht := toNat_pyLowerChar_of_upper h
    exact pyLowerChar_of_not_upper (by omega)
  · rw [pyLowerChar_of_not_upper h, pyLowerChar_of_not_upper h]

theorem isPySpace_pyLowerChar (c : Char) :
    isPySpace (pyLowerChar c) = isPySpace c := by
  by_cases h : 65 ≤ c.toNat ∧ c.toNat ≤ 90
  · have ht := toNat_pyLowerChar_of_upper h
    have h1 : isPySpace (pyLowerChar c) = false := by
      rw [Bool.eq_false_iff]
      intro hs
      rw [isPySpace_iff, ht] at hs
      omega
    have h2 : isPySpace c = false := by
      rw [Bool.eq_false_iff]
      intro hs
      rw [isPySpace_iff] at hs
      omega
    rw [h1, h2]
  · rw [pyLowerChar_of_not_upper h]

theorem isKept_pyLowerChar {c : Char} (h : isKept c = true) :
    isKept (pyLowerChar c) = true := by
  by_cases hu : 65 ≤ c.toNat ∧ c.toNat ≤ 90
  · have ht := toNat_pyLowerChar_of_upper hu
    rw [isKept_iff, ht]
    omega
  · rw [pyLowerChar_of_not_upper hu]
    exact h

theorem goodChar_pyLowerChar {c : Char} (h : isKept c = true) :
    goodChar (pyLowerChar c) = true := by
  unfold goodChar
  rw [isKept_pyLowerChar h, pyLowerChar_idem, Bool.true_and]
  exact beq_self_eq_true _

theorem noAdjSp_tail {c : Char} {cs : List Char} (h : noAdjSp (c :: cs) = true) :
    noAdjSp cs = true := by
  cases cs with
  | nil => rfl
  | cons d t =>
    unfold noAdjSp at h
    rw [Bool.and_eq_true] at h
    exact h.2

theorem noAdjSp_cons_of_headNoSp {c : Char} {l : List Char}
    (h1 : headNoSp l = true) (h2 : noAdjSp l = true) : noAdjSp (c :: l) = true := by
  cases l with
  | nil => rfl
  | cons d t =>
    have hd : isPySpace d = false := by
      have := h1
      unfold headNoSp at this
      rwa [Bool.not_eq_true'] at this
    unfold noAdjSp
    rw [hd, Bool.and_false, Bool.not_false, Bool.true_and]
    exact h2

theorem noAdjSp_cons_of_nonspace {c : Char} {l : List Char}
    (h1 : isPySpace c = false) (h2 : noAdjSp l = true) : noAdjSp (c :: l) = true := by
  cases l with
  | nil => rfl
  | cons d t =>
    unfold noAdjSp
    rw [h1, Bool.false_and, Bool.not_false, Bool.true_and]
    exact h2

theorem headNoSp_collapseAux_true (l : List Char) :
    headNoSp (collapseAux true l) = true := by
  induction l with
  | nil => rfl
  | cons c cs ih =>
    unfold collapseAux
    by_cases hc : isPySpace c = true
    · rw [if_pos hc, if_pos rfl]
      exact ih
    · rw [if_neg hc]
      have hc' : isPySpace c = false := Bool.eq_false_iff.mpr hc
      show (!isPySpace c) = true
      rw [hc']
      rfl

theorem onlySp_collapseAux (b : Bool) (l : List Char) :
    onlySp (collapseAux b l) = true := by
  induction l generalizing b with
  | nil => rfl
  | cons c cs ih =>
    unfold collapseAux
    by_cases hc : isPySpace c = true
    · rw [if_pos hc]
      cases b with
      | true => exact ih true
      | false =>
        rw [if_neg (by decide : ¬(false = true))]
        unfold onlySp
        rw [List.all_cons]
        rw [show ((!isPySpace ' ' || (' ' == ' ')) = true) by decide, Bool.true_and]
        exact ih true
    · rw [if_neg hc]
      have hc' : isPySpace c = false := Bool.eq_false_iff.mpr hc
      unfold onlySp
      rw [List.all_cons, hc', Bool.not_false, Bool.true_or, Bool.true_and]
      exact ih false

theorem noAdjSp_collapseAux (b : Bool) (l : List Char) :
    noAdjSp (collapseAux b l) = true := by
  induction l generalizing b with
  | nil => rfl
  | cons c cs ih =>
    unfold collapseAux
    by_cases hc : isPySpace c = true
    · rw [if_pos hc]
      cases b with
      | true => exact ih true
      | false =>
        rw [if_neg (by decide : ¬(false = true))]
        exact noAdjSp_cons_of_headNoSp (headNoSp_collapseAux_true cs) (ih true)
    · rw [if_neg hc]
      exact noAdjSp_cons_of_nonspace (Bool.eq_false_iff.mpr hc) (ih false)

theorem mem_collapseAux {c : Char} :
    ∀ {b : Bool} {l : List Char}, c ∈ collapseAux b l → c = ' ' ∨ c ∈ l := by
  intro b l
  induction l generalizing b with
  | nil => intro h; exact absurd h (List.not_mem_nil c)
  | cons a cs ih =>
    intro h
    unfold collapseAux at h
    by_cases ha : isPySpace a = true
    · rw [if_pos ha] at h
      cases b with
      | true =>
        rcases ih h with h1 | h1
        · exact Or.inl h1
        · exact Or.inr (List.mem_cons_of_mem a h1)
      | false =>
        rw [if_neg (by decide : ¬(false = true))] at h
        rcases List.mem_cons.mp h with h1 | h1
        · exact Or.inl h1
        · rcases ih h1 with h2 | h2
          · exact Or.inl h2
          · exact Or.inr (List.mem_cons_of_mem a h2)
    · rw [if_neg ha] at h
      rcases List.mem_cons.mp h with h1 | h1
      · exact Or.inr (h1 ▸ List.mem_cons_self a cs)
      · rcases ih h1 with h2 | h2
        · exact Or.inl h2
        · exact Or.inr (List.mem_cons_of_mem a h2)

theorem all_dropWhile {q p : Char → Bool} {l : List Char} (h : l.all q = true) :
    (l.dropWhile p).all q = true := by
  induction l with
  | nil => rfl
  | cons c cs ih =>
    rw [List.dropWhile_cons]
    rw [List.all_cons, Bool.and_eq_true] at h
    by_cases hp : p c = true
    · rw [if_pos hp]
      exact ih h.2
    · rw [if_neg hp, List.all_cons, Bool.and_eq_true]
      exact ⟨h.1, h.2⟩

theorem headNoSp_dropWhile (l : List Char) :
    headNoSp (l.dropWhile isPySpace) = true := by
  induction l with
  | nil => rfl
  | cons c cs ih =>
    rw [List.dropWhile_cons]
    by_cases hc : isPySpace c = true
    · rw [if_pos hc]
      exact ih
    · rw [if_neg hc]
      have hc' : isPySpace c = false := Bool.eq_false_iff.mpr hc
      show (!isPySpace c) = true
      rw [hc']
      rfl

theorem noAdjSp_dropWhile {l : List Char} (h : noAdjSp l = true) :
    noAdjSp (l.dropWhile isPySpace) = true := by
  induction l with
  | nil => rfl
  | cons c cs ih =>
    rw [List.dropWhile_cons]
    by_cases hc : isPySpace c = true
    · rw [if_pos hc]
      exact ih (noAdjSp_tail h)
    · rw [if_neg hc]
      exact h

theorem lastNoSp_dropWhile {p : Char → Bool} {l : List Char} (h : lastNoSp l = true) :
    lastNoSp (l.dropWhile p) = true := by
  induction l with
  | nil => rfl
  | cons c cs ih =>
    rw [List.dropWhile_cons]
    by_cases hp : p c = true
    · rw [if_pos hp]
      apply ih
      cases cs with
      | nil => rfl
      | cons d t => exact h
    · rw [if_neg hp]
      exact h

theorem dropTrail_shape (c : Char) (cs : List Char) :
    dropTrail (c :: cs) = [] ∨ dropTrail (c :: cs) = c :: dropTrail cs := by
  by_cases h : ((dropTrail cs).isEmpty && isPySpace c) = true
  · left
    simp only [dropTrail]
    rw [if_pos h]
  · right
    simp only [dropTrail]
    rw [if_neg h]

theorem lastNoSp_dropTrail (l : List Char) : lastNoSp (dropTrail l) = true := by
  induction l with
  | nil => rfl
  | cons c cs ih =>
    by_cases h : ((dropTrail cs).isEmpty && isPySpace c) = true
    · simp only [dropTrail]
      rw [if_pos h]
      rfl
    · simp only [dropTrail]
      rw [if_neg h]
      cases hsh : dropTrail cs with
      | nil =>
        have hc : isPySpace c = false := by
          rw [hsh] at h
          simpa using h
        show (!isPySpace c) = true
        rw [hc]
        rfl
      | cons d t =>
        show lastNoSp (c :: d :: t) = true
        unfold lastNoSp
        rw [← hsh]
        exact ih

theorem headNoSp_dropTrail {l : List Char} (h : headNoSp l = true) :
    headNoSp (dropTrail l) = true := by
  cases l with
  | nil => rfl
  | cons c cs =>
    rcases dropTrail_shape c cs with hsh | hsh
    · rw [hsh]
      rfl
    · rw [hsh]
      exact h

theorem all_dropTrail {q : Char → Bool} {l : List Char} (h : l.all q = true) :
    (dropTrail l).all q = true := by
  induction l with
  | nil => rfl
  | cons c cs ih =>
    rw [List.all_cons, Bool.and_eq_true] at h
    rcases dropTrail_shape c cs with hsh | hsh
    · rw [hsh]
      rfl
    · rw [hsh, List.all_cons, h.1, Bool.true_and]
      exact ih h.2

theorem noAdjSp_dropTrail {l : List Char} (h : noAdjSp l = true) :
    noAdjSp (dropTrail l) = true := by
  induction l with
  | nil => rfl
  | cons c cs ih =>
    rcases dropTrail_shape c cs with hsh | hsh
    · rw [hsh]
      rfl
    · rw [hsh]
      cases cs with
      | nil => rfl
      | cons d t =>
        have hpair := h
        unfold noAdjSp at hpair
        rw [Bool.and_eq_true] at hpair
        rcases dropTrail_shape d t with hsh2 | hsh2
        · rw [hsh2]
          rfl
        · rw [hsh2]
          unfold noAdjSp
          rw [Bool.and_eq_true]
          refine ⟨hpair.1, ?_⟩
          have := ih (noAdjSp_tail h)
          rw [hsh2] at this
          exact this

theorem collapseAux_false_eq_self {l : List Char}
    (h1 : onlySp l = true) (h2 : noAdjSp l = true) : collapseAux false l = l := by
  induction l with
  | nil => rfl
  | cons c cs ih =>
    unfold onlySp at h1
    rw [List.all_cons, Bool.and_eq_true] at h1
    by_cases hc : isPySpace c = true
    · have hsp : c = ' ' := by
        have := h1.1
        rw [hc, Bool.not_true, Bool.false_or] at this
        exact eq_of_beq this
      simp only [collapseAux]
      rw [if_pos hc, if_neg (by decide : ¬(false = true))]
      subst hsp
      cases cs with
      | nil => rfl
      | cons d t =>
        have hd : isPySpace d = false := by
          unfold noAdjSp at h2
          rw [Bool.and_eq_true] at h2
          have := h2.1
          rw [hc, Bool.true_and] at this
          exact Bool.eq_false_iff.mpr (fun hdt => by rw [hdt] at this; exact absurd this (by decide))
        have ihr : collapseAux false (d :: t) = d :: t :=
          ih h1.2 (noAdjSp_tail h2)
        have hstep : collapseAux false (d :: t) = d :: collapseAux false t := by
          simp only [collapseAux]
          rw [if_neg (by rw [hd]; exact (by decide : ¬(false = true)))]
        have htt : collapseAux false t = t := by
          rw [hstep] at ihr
          exact List.cons.inj ihr |>.2
        show ' ' :: collapseAux true (d :: t) = ' ' :: d :: t
        simp only [collapseAux]
        rw [if_neg (by rw [hd]; exact (by decide : ¬(false = true))), htt]
    · simp only [collapseAux]
      rw [if_neg hc]
      rw [ih h1.2 (noAdjSp_tail h2)]

theorem filter_isKept_eq_self {l : List Char} (h : l.all isKept = true) :
    l.filter isKept = l :=
  List.filter_eq_self.mpr (List.all_eq_true.mp h)

theorem map_pyLowerChar_eq_self {l : List Char} (h : l.all goodChar = true) :
    l.map pyLowerChar = l := by
  induction l with
  | nil => rfl
  | cons c cs ih =>
    rw [List.all_cons, Bool.and_eq_true] at h
    have hc : pyLowerChar c = c := by
      have := h.1
      unfold goodChar at this
      rw [Bool.and_eq_true] at this
      exact eq_of_beq this.2
    rw [List.map_cons, hc, ih h.2]

theorem dropWhile_eq_self_of_headNoSp {l : List Char} (h : headNoSp l = true) :
    l.dropWhile isPySpace = l := by
  cases l with
  | nil => rfl
  | cons c cs =>
    have hc : isPySpace c = false := by
      have : (!isPySpace c) = true := h
      rwa [Bool.not_eq_true'] at this
    rw [List.dropWhile_cons, if_neg (by rw [hc]; exact (by decide : ¬(false = true)))]

theorem dropTrail_eq_self_of_lastNoSp {l : List Char} (h : lastNoSp l = true) :
    dropTrail l = l := by
  induction l with
  | nil => rfl
  | cons c cs ih =>
    cases cs with
    | nil =>
      have hc : isPySpace c = false := by
        have : (!isPySpace c) = true := h
        rwa [Bool.not_eq_true'] at this
      simp only [dropTrail]
      rw [if_neg (by rw [hc]; simp)]
    | cons d t =>
      have hrec : dropTrail (d :: t) = d :: t := ih h
      have heq : dropTrail (c :: d :: t)
          = if ((dropTrail (d :: t)).isEmpty && isPySpace c) = true then []
            else c :: dropTrail (d :: t) := rfl
      rw [heq, hrec, if_neg (by simp)]

theorem all_goodChar_kept {l : List Char} (h : l.all goodChar = true) :
    l.all isKept = true := by
  rw [List.all_eq_true] at h ⊢
  intro c hc
  have := h c hc
  unfold goodChar at this
  rw [Bool.and_eq_true] at this
  exact this.1

theorem ppList_eq_self_of_canon {l : List Char}
    (h1 : onlySp l = true) (h2 : noAdjSp l = true) (h3 : headNoSp l = true)
    (h4 : lastNoSp l = true) (h5 : l.all goodChar = true) : ppList l = l := by
  unfold ppList stripList
  rw [collapseAux_false_eq_self h1 h2, filter_isKept_eq_self (all_goodChar_kept h5),
    map_pyLowerChar_eq_self h5, dropWhile_eq_self_of_headNoSp h3,
    dropTrail_eq_self_of_lastNoSp h4]

theorem onlySp_map_pyLowerChar {l : List Char} (h : onlySp l = true) :
    onlySp (l.map pyLowerChar) = true := by
  unfold onlySp at h ⊢
  rw [List.all_map]
  rw [List.all_eq_true] at h ⊢
  intro c hc
  have hcp := h c hc
  show (!isPySpace (pyLowerChar c) || (pyLowerChar c == ' ')) = true
  by_cases hs : isPySpace c = true
  · have hsp : c = ' ' := by
      rw [hs, Bool.not_true, Bool.false_or] at hcp
      exact eq_of_beq hcp
    subst hsp
    rw [show pyLowerChar ' ' = ' ' from rfl]
    decide
  · rw [isPySpace_pyLowerChar, Bool.eq_false_iff.mpr hs]
    rfl

theorem noAdjSp_map_pyLowerChar {l : List Char} (h : noAdjSp l = true) :
    noAdjSp (l.map pyLowerChar) = true := by
  induction l with
  | nil => rfl
  | cons c cs ih =>
    cases cs with
    | nil => rfl
    | cons d t =>
      unfold noAdjSp at h
      rw [Bool.and_eq_true] at h
      rw [List.map_cons, List.map_cons]
      show (!(isPySpace (pyLowerChar c) && isPySpace (pyLowerChar d))
          && noAdjSp (pyLowerChar d :: t.map pyLowerChar)) = true
      rw [Bool.and_eq_true]
      constructor
      · rw [isPySpace_pyLowerChar, isPySpace_pyLowerChar]
        exact h.1
      · have := ih h.2
        rw [List.map_cons] at this
        exact this

theorem headNoSp_map_pyLowerChar {l : List Char} (h : headNoSp l = true) :
    headNoSp (l.map pyLowerChar) = true := by
  cases l with
  | nil => rfl
  | cons c cs =>
    have : (!isPySpace c) = true := h
    show (!isPySpace (pyLowerChar c)) = true
    rw [isPySpace_pyLowerChar]
    exact this

theorem all_goodChar_map_pyLowerChar {l : List Char} (h : l.all isKept = true) :
    (l.map pyLowerChar).all goodChar = true := by
  rw [List.all_map, List.all_eq_true]
  intro c hc
  exact goodChar_pyLowerChar (List.all_eq_true.mp h c hc)

theorem all_isKept_collapseAux {l : List Char} (h : l.all isKept = true) (b : Bool) :
    (collapseAux b l).all isKept = true := by
  rw [List.all_eq_true]
  intro c hc
  rcases mem_collapseAux hc with h1 | h1
  · subst h1
    decide
  · exact List.all_eq_true.mp h c h1

theorem ppList_canon {l : List Char} (h : l.all isKept = true) :
    onlySp (ppList l) = true ∧ noAdjSp (ppList l) = true
    ∧ headNoSp (ppList l) = true ∧ lastNoSp (ppList l) = true
    ∧ (ppList l).all goodChar = true := by
  have hfil : (collapseAux false l).filter isKept = collapseAux false l :=
    filter_isKept_eq_self (all_isKept_collapseAux h false)
  have hpp : ppList l
      = stripList ((collapseAux false l).map pyLowerChar) := by
    unfold ppList
    rw [hfil]
  have hm_only : onlySp ((collapseAux false l).map pyLowerChar) = true :=
    onlySp_map_pyLowerChar (onlySp_collapseAux false l)
  have hm_adj : noAdjSp ((collapseAux false l).map pyLowerChar) = true :=
    noAdjSp_map_pyLowerChar (noAdjSp_collapseAux false l)
  have hm_good : ((collapseAux false l).map pyLowerChar).all goodChar = true :=
    all_goodChar_map_pyLowerChar (all_isKept_collapseAux h false)
  rw [hpp]
  unfold stripList
  refine ⟨?_, ?_, ?_, ?_, ?_⟩
  · exact all_dropTrail (all_dropWhile hm_only)
  · exact noAdjSp_dropTrail (noAdjSp_dropWhile hm_adj)
  · exact headNoSp_dropTrail (headNoSp_dropWhile _)
  · exact lastNoSp_dropTrail _
  · exact all_dropTrail (all_dropWhile hm_good)

theorem ppList_idem {l : List Char} (h : l.all isKept = true) :
    ppList (ppList l) = ppList l := by
  obtain ⟨h1, h2, h3, h4, h5⟩ := ppList_canon h
  exact ppList_eq_self_of_canon h1 h2 h3 h4 h5

/-- C10 as stated is false: removing punctuation can merge two whitespace
runs, so one pass can leave a double space that a second pass collapses —
`preprocess_text "a . b" = "a  b"` but a second application gives `"a b"`. -/
theorem C10_counterexample :
    preprocess_text "a . b" = "a  b"
    ∧ preprocess_text (preprocess_text "a . b") = "a b"
    ∧ preprocess_text (preprocess_text "a . b") ≠ preprocess_text "a . b" := by
  refine ⟨by decide, by decide, by decide⟩

/-- C10 amended: `preprocess_text` is idempotent on every string containing
no character that the punctuation filter removes (all characters word
characters, whitespace, or hyphens); in general a second pass can differ, as
the counterexample shows. -/
theorem C10_amended_idempotent_on_kept (t : String)
    (h : t.toList.all isKept = true) :
    preprocess_text (preprocess_text t) = preprocess_text t := by
  unfold preprocess_text
  exact congrArg String.mk (ppList_idem h)

/-- Witness for the amended C10 at a concrete punctuation-free string. -/
theorem C10_amended_idempotent_on_kept_witness :
    preprocess_text (preprocess_text "Senior Python  Developer")
      = preprocess_text "Senior Python  Developer" :=
  C10_amended_idempotent_on_kept "Senior Python  Developer" (by decide)
